import Mathlib

/-!
Verification of the mobility-network-analysis graph engine.

The Python sources are shallowly embedded: building records become a
`Building` structure, the `networkx` undirected weighted graph becomes
`NXGraph` (a node list plus an edge list of endpoint pairs with rational
weights), Python floats become `ℚ` (or `ℝ` for the trigonometric distance
formula), and fallible computations return `Except String`.  Calls into
external libraries (`networkx`, `scipy`, `geopy`) that the repository's own
logic merely dispatches on are modelled either concretely (breadth-first
reachability, Bellman–Ford relaxation, the PageRank power iteration) or as
explicit function parameters, as noted at each definition.
-/

/-- A building record: `building_id`, centroid longitude/latitude and
`area_m2`, as carried by the rows of `buildings_df`. -/
structure Building where
  id : Nat
  lon : ℚ
  lat : ℚ
  area : ℚ
  deriving DecidableEq, Repr

/-- Embedding of an undirected weighted `networkx` graph: the node list (in
insertion order) and the edge list, each edge `(u, v, w)` carrying its
`weight = distance_m` attribute.  An undirected edge is stored once, in the
orientation in which `G.add_edge` received it. -/
structure NXGraph where
  nodes : List Nat
  edges : List (Nat × Nat × ℚ)
  deriving DecidableEq, Repr

namespace NXGraph

/-- `G.has_edge u v`: some stored edge joins `u` and `v` (either
orientation). -/
def hasEdge (G : NXGraph) (u v : Nat) : Bool :=
  G.edges.any (fun e => (e.1 == u && e.2.1 == v) || (e.1 == v && e.2.1 == u))

/-- Neighbours of `u`: the opposite endpoints of the edges incident to
`u`. -/
def neighbors (G : NXGraph) (u : Nat) : List Nat :=
  G.edges.filterMap (fun e =>
    if e.1 = u then some e.2.1 else if e.2.1 = u then some e.1 else none)

/-- `G.degree(u)`: number of stored edge slots incident to `u`. -/
def degreeOf (G : NXGraph) (u : Nat) : Nat :=
  (G.edges.filter (fun e => e.1 == u)).length
    + (G.edges.filter (fun e => e.2.1 == u)).length

/-- One round of breadth-first expansion: keep the visited set and add every
neighbour of a visited node. -/
def stepR (G : NXGraph) (vs : List Nat) : List Nat :=
  (vs ++ (vs.map (fun v => G.neighbors v)).flatten).dedup

/-- Nodes reachable from `u`, computed by iterating breadth-first expansion
`|nodes|` times (enough rounds for any simple path).  Models the plain BFS
that `networkx` connectivity helpers use. -/
def reach (G : NXGraph) (u : Nat) : List Nat :=
  (G.stepR)^[G.nodes.length] [u]

/-- The connected component of `u`, as the sublist of `G.nodes` reachable
from `u`. -/
def component (G : NXGraph) (u : Nat) : List Nat :=
  G.nodes.filter (fun m => decide (m ∈ G.reach u))

/-- Models `nx.connected_components(G)`: walk the nodes in insertion order
and emit the component of each not-yet-seen node. -/
def componentsAux (G : NXGraph) : List Nat → List Nat → List (List Nat)
  | [], _ => []
  | n :: rest, seen =>
    if n ∈ seen then componentsAux G rest seen
    else G.component n :: componentsAux G rest (seen ++ G.component n)

/-- The list of connected components of `G`, in first-node order. -/
def components (G : NXGraph) : List (List Nat) :=
  G.componentsAux G.nodes []

/-- Boolean connectivity test on a non-null graph: the component of the
first node exhausts the node list (the semantics of `nx.is_connected`). -/
def isConnectedB (G : NXGraph) : Bool :=
  (G.component (G.nodes.headD 0)).length == G.nodes.length

/-- `G.subgraph(c)`: the nodes of `G` that lie in `c` together with the
edges both of whose endpoints lie in `c`. -/
def subgraph (G : NXGraph) (c : List Nat) : NXGraph :=
  { nodes := G.nodes.filter (fun n => decide (n ∈ c)),
    edges := G.edges.filter (fun e => decide (e.1 ∈ c) && decide (e.2.1 ∈ c)) }

end NXGraph

/-! ## Shortest-path distances

`nx.single_source_dijkstra_path_length(G, src, weight='weight')` is modelled
by Bellman–Ford relaxation over `ℚ`: starting from `{src ↦ 0}`, relax every
edge in both directions, `|nodes|` times.  On the non-negatively weighted
graphs this pipeline builds, the resulting distance map agrees with
Dijkstra's; unreachable nodes simply never enter the map. -/

/-- Set the tentative distance of `n` to `v` if that improves (or creates)
its entry. -/
def updateDist (d : List (Nat × ℚ)) (n : Nat) (v : ℚ) : List (Nat × ℚ) :=
  match d.lookup n with
  | some cur => if v < cur then d.map (fun p => if p.1 = n then (n, v) else p) else d
  | none => d ++ [(n, v)]

/-- Relax a single undirected edge in both directions. -/
def relaxEdge (d : List (Nat × ℚ)) (e : Nat × Nat × ℚ) : List (Nat × ℚ) :=
  let d1 := match d.lookup e.1 with
    | some du => updateDist d e.2.1 (du + e.2.2)
    | none => d
  match d1.lookup e.2.1 with
  | some dv => updateDist d1 e.1 (dv + e.2.2)
  | none => d1

/-- One relaxation round over every edge. -/
def relaxOnce (G : NXGraph) (d : List (Nat × ℚ)) : List (Nat × ℚ) :=
  G.edges.foldl relaxEdge d

/-- Weighted single-source shortest-path distance map from `src`. -/
def sssp (G : NXGraph) (src : Nat) : List (Nat × ℚ) :=
  (relaxOnce G)^[G.nodes.length] [(src, 0)]

/-! ## C6: weighted accessibility (`calculate_weighted_accessibility`) -/

/-- Maximum of a list of rationals (`pandas` `.max()` on a non-empty
column). -/
def maxQ (l : List ℚ) : ℚ := l.foldl max (l.headD 0)

/-- Minimum of a list of rationals (`pandas` `.min()`). -/
def minQ (l : List ℚ) : ℚ := l.foldl min (l.headD 0)

/-- Embedding of `calculate_weighted_accessibility` from
`4_calculate_accessibility.py` (lines 169–210): normalise `area_m2` over the
batch to `[0,1]` (uniformly `1.0` when the range is degenerate) and scale
each building's distance-accessibility count by `1 + normalized_area`.
`dacc` stands for the `distance_accessibility` series, already aligned with
fill value `0`. -/
def calculate_weighted_accessibility (bs : List Building) (dacc : Nat → ℚ)
    (area_weight : Bool) : List (Nat × ℚ) :=
  if area_weight then
    let areas := bs.map (fun b => b.area)
    let maxArea := maxQ areas
    let minArea := minQ areas
    let areaRange := maxArea - minArea
    bs.map (fun b =>
      (b.id, dacc b.id *
        (1 + (if areaRange > 0 then (b.area - minArea) / areaRange else 1))))
  else
    bs.map (fun b => (b.id, dacc b.id))

/-! ## C1: `build_distance_graph` (`network_utils.py` lines 107–187) -/

/-- The edge list built by the double loop of `build_distance_graph`: for
each position `i` and each later position `j`, compute the pair's distance
and record an edge exactly when it is `≤ T`.  `dist` stands for the per-pair
distance computed at lines 170–176 (edge-to-edge when requested and both
footprints exist, else haversine or euclidean on the centroids). -/
def thresholdEdges (dist : Building → Building → ℚ) (T : ℚ) :
    List Building → List (Nat × Nat × ℚ)
  | [] => []
  | b :: rest =>
    rest.filterMap (fun b2 =>
        if dist b b2 ≤ T then some (b.id, b2.id, dist b b2) else none)
      ++ thresholdEdges dist T rest

/-- Embedding of `build_distance_graph`: one node per record, plus the
threshold edges. -/
def build_distance_graph (dist : Building → Building → ℚ) (bs : List Building)
    (T : ℚ) : NXGraph :=
  { nodes := bs.map Building.id, edges := thresholdEdges dist T bs }

/-- `pairIn bs b1 b2`: `b1` occurs at some position of `bs` and `b2` at a
strictly later one — exactly the pairs the `i < j` double loop visits. -/
def pairIn : List Building → Building → Building → Prop
  | [], _, _ => False
  | b :: rest, b1, b2 => (b = b1 ∧ b2 ∈ rest) ∨ pairIn rest b1 b2

/-! ## C7: `build_delaunay_graph` (`network_utils.py` lines 190–254) -/

/-- Add the three sides of one triangle of the triangulation, skipping a
side whose endpoints are already joined; the new edge's weight is the
distance between the endpoint coordinates. -/
def addSimplexEdges (dist : (ℚ × ℚ) → (ℚ × ℚ) → ℚ) (ids : List Nat)
    (coords : List (ℚ × ℚ)) (acc : List (Nat × Nat × ℚ)) (s : Nat × Nat × Nat) :
    List (Nat × Nat × ℚ) :=
  [(s.1, s.2.1), (s.2.1, s.2.2), (s.2.2, s.1)].foldl (fun acc2 ij =>
    let n1 := ids.getD ij.1 0
    let n2 := ids.getD ij.2 0
    if (NXGraph.mk ids acc2).hasEdge n1 n2 then acc2
    else acc2 ++ [(n1, n2, dist (coords.getD ij.1 (0, 0)) (coords.getD ij.2 (0, 0)))]) acc

/-- Edge list derived from all triangles. -/
def delaunayEdges (dist : (ℚ × ℚ) → (ℚ × ℚ) → ℚ) (ids : List Nat)
    (coords : List (ℚ × ℚ)) (simplices : List (Nat × Nat × Nat)) :
    List (Nat × Nat × ℚ) :=
  simplices.foldl (addSimplexEdges dist ids coords) []

/-- Embedding of `build_delaunay_graph`.  `tri` stands for
`scipy.spatial.Delaunay` applied to the centroid coordinate array: it either
returns the triangle list or fails (`QhullError` on degenerate input, e.g.
fewer than 3 non-collinear points); on failure the builder returns the graph
with all nodes and no edges.  `dist` stands for `haversine_distance` on the
endpoint centroids. -/
def build_delaunay_graph (dist : (ℚ × ℚ) → (ℚ × ℚ) → ℚ)
    (tri : List (ℚ × ℚ) → Except String (List (Nat × Nat × Nat)))
    (bs : List Building) : NXGraph :=
  let ids := bs.map Building.id
  let coords := bs.map (fun b => (b.lon, b.lat))
  match tri coords with
  | .error _ => { nodes := ids, edges := [] }
  | .ok simplices => { nodes := ids, edges := delaunayEdges dist ids coords simplices }

/-! ## C2: `calculate_average_path_distance`
(`4_calculate_accessibility.py` lines 116–166) and its export boundary
(lines 258–277). -/

/-- The per-node value before export: a finite mean or `np.inf`. -/
inductive AvgVal where
  | val (q : ℚ)
  | inf
  deriving DecidableEq, Repr

/-- The shared body of both branches of `calculate_average_path_distance`:
Dijkstra distances from `node`, self excluded; their mean if any remain,
else `0.0`. -/
def meanDistances (G : NXGraph) (node : Nat) : AvgVal :=
  let distances := ((sssp G node).filter (fun p => p.1 != node)).map (fun p => p.2)
  if distances.isEmpty then AvgVal.val 0
  else AvgVal.val (distances.sum / (distances.length : ℚ))

/-- Embedding of the per-node loop body of `calculate_average_path_distance`:
on a connected graph, the mean over the whole graph; on a disconnected
graph, `next(nx.connected_components(G), None)` yields only the FIRST
component — a node inside it gets the mean over that component's subgraph,
any other node gets `np.inf`. -/
def averagePathDistanceNode (G : NXGraph) (node : Nat) : AvgVal :=
  if G.isConnectedB then meanDistances G node
  else
    match G.components.head? with
    | some comp =>
      if !comp.isEmpty && decide (node ∈ comp) then
        meanDistances (G.subgraph comp) node
      else AvgVal.inf
    | none => AvgVal.inf

/-- The export boundary of `calculate_accessibility` (line 277): `np.inf`
is replaced by NaN, i.e. by a missing value; finite values pass through. -/
def exportAvg : AvgVal → Option ℚ
  | .val q => some q
  | .inf => none

/-! ## C3: `calculate_network_statistics` (`network_utils.py` lines 257–293) -/

/-- Collapse a fallible computation to its value, or to the missing value —
the `try/except` pattern around a single metric. -/
def exceptToOption {α : Type} : Except String α → Option α
  | .ok a => some a
  | .error _ => none

/-- The statistics record: `None` fields become `Option.none`. -/
structure NetworkStats where
  num_nodes : Nat
  num_edges : Nat
  density : ℚ
  average_degree : ℚ
  is_connected : Bool
  num_connected_components : Nat
  average_shortest_path_length : Option ℚ
  average_clustering : Option ℚ
  deriving DecidableEq, Repr

/-- `nx.density`: `0` for a graph with at most one node or no edge, else
`2E / (N(N-1))`. -/
def nxDensity (G : NXGraph) : ℚ :=
  if G.edges.length = 0 ∨ G.nodes.length ≤ 1 then 0
  else (2 * (G.edges.length : ℚ)) / ((G.nodes.length : ℚ) * ((G.nodes.length : ℚ) - 1))

/-- `sum(dict(G.degree()).values()) / len(G.nodes())` guarded by the
node-count check. -/
def averageDegree (G : NXGraph) : ℚ :=
  if G.nodes.length > 0 then
    ((G.nodes.map (fun n => G.degreeOf n)).sum : ℚ) / (G.nodes.length : ℚ)
  else 0

/-- `nx.is_connected`: raises `NetworkXPointlessConcept` on the null graph,
otherwise answers the connectivity question. -/
def nxIsConnected (G : NXGraph) : Except String Bool :=
  if G.nodes.isEmpty then .error "Connectivity is undefined for the null graph."
  else .ok G.isConnectedB

/-- Embedding of `calculate_network_statistics`.  The dictionary literal
computes `nx.is_connected(G)` UNGUARDED — its failure aborts the whole call.
Only the average shortest-path length and the clustering coefficient are
individually wrapped in `try/except`; `asplO` and `clusO` stand for
`nx.average_shortest_path_length(G, weight='weight')` and
`nx.average_clustering(G)`. -/
def calculate_network_statistics (asplO clusO : NXGraph → Except String ℚ)
    (G : NXGraph) : Except String NetworkStats := do
  let conn ← nxIsConnected G
  pure {
    num_nodes := G.nodes.length,
    num_edges := G.edges.length,
    density := nxDensity G,
    average_degree := averageDegree G,
    is_connected := conn,
    num_connected_components := G.components.length,
    average_shortest_path_length := if conn then exceptToOption (asplO G) else none,
    average_clustering := exceptToOption (clusO G) }

/-! ## C4/C5: `calculate_centrality_metrics`
(`3_analyze_network.py` lines 84–170) -/

/-- The component loop of the disconnected-closeness branch: components with
more than one node get the closeness dictionary of their subgraph, singleton
components get `{node: 0.0}`; results accumulate into one dictionary. A
failure inside any component aborts the accumulated computation (it is the
surrounding `try` that catches it). -/
def perCompAux (ccO : NXGraph → Except String (List (Nat × ℚ))) (G : NXGraph) :
    List (List Nat) → List (Nat × ℚ) → Except String (List (Nat × ℚ))
  | [], acc => .ok acc
  | c :: rest, acc =>
    if 1 < c.length then
      match ccO (G.subgraph c) with
      | .ok d => perCompAux ccO G rest (acc ++ d)
      | .error e => .error e
    else perCompAux ccO G rest (acc ++ [(c.headD 0, 0)])

/-- The disconnected branch of the closeness computation. -/
def perComponentCloseness (ccO : NXGraph → Except String (List (Nat × ℚ)))
    (G : NXGraph) : Except String (List (Nat × ℚ)) :=
  perCompAux ccO G G.components []

/-- The body of the closeness `try` block: connectivity test, then either a
whole-graph closeness call (`ccO` stands for
`nx.closeness_centrality(·, distance='weight')`) or the per-component
loop. -/
def closenessExcept (ccO : NXGraph → Except String (List (Nat × ℚ)))
    (G : NXGraph) : Except String (List (Nat × ℚ)) := do
  let conn ← nxIsConnected G
  if conn then ccO G else perComponentCloseness ccO G

/-- The closeness column: the `try/except` fallback assigns `0.0` to every
node on failure; on success a node's value is looked up with default
`0.0` (the final `closeness_centrality.get(node, 0.0)`). -/
def closenessResult (ccO : NXGraph → Except String (List (Nat × ℚ)))
    (G : NXGraph) : Nat → ℚ :=
  match closenessExcept ccO G with
  | .ok d => fun n => (d.lookup n).getD 0
  | .error _ => fun _ => 0

/-- The sample-size argument of the betweenness call: `k = min(50, N)`
pivots for graphs with more than 50 nodes, `None` (exact computation)
otherwise. -/
def kChoice (G : NXGraph) : Option Nat :=
  if G.nodes.length > 50 then some (min 50 G.nodes.length) else none

/-- The betweenness column: `bcO` stands for
`nx.betweenness_centrality(G, weight='weight', k=·)`; on failure every node
falls back to `0.0`, on success values are looked up with default `0.0`. -/
def betweennessResult
    (bcO : NXGraph → Option Nat → Except String (List (Nat × ℚ)))
    (G : NXGraph) : Nat → ℚ :=
  match bcO G (kChoice G) with
  | .ok d => fun n => (d.lookup n).getD 0
  | .error _ => fun _ => 0

/-- The PageRank column: `prO` stands for
`nx.pagerank(G, weight='weight')`; on failure the uniform distribution
`1/N` is assigned. -/
def pagerankResult (prO : NXGraph → Except String (List (Nat × ℚ)))
    (G : NXGraph) : Nat → ℚ :=
  match prO G with
  | .ok d => fun n => (d.lookup n).getD 0
  | .error _ => fun _ => 1 / (G.nodes.length : ℚ)

/-- `nx.degree_centrality`: `1` for every node of a graph with at most one
node, else `degree * 1/(N-1)`. -/
def nxDegreeCentrality (G : NXGraph) : Nat → ℚ :=
  if G.nodes.length ≤ 1 then fun _ => 1
  else fun n => (G.degreeOf n : ℚ) * (1 / ((G.nodes.length : ℚ) - 1))

/-- One output row of the centrality pass. -/
structure CentralityRow where
  building_id : Nat
  degree : Nat
  degree_centrality : ℚ
  betweenness_centrality : ℚ
  closeness_centrality : ℚ
  pagerank : ℚ
  deriving DecidableEq, Repr

/-- Embedding of `calculate_centrality_metrics`: each metric is computed by
its own guarded block, then one row per node is assembled with
`.get(node, 0.0)` lookups. -/
def calculate_centrality_metrics
    (bcO : NXGraph → Option Nat → Except String (List (Nat × ℚ)))
    (ccO prO : NXGraph → Except String (List (Nat × ℚ)))
    (G : NXGraph) : List CentralityRow :=
  G.nodes.map (fun n =>
    { building_id := n,
      degree := G.degreeOf n,
      degree_centrality := nxDegreeCentrality G n,
      betweenness_centrality := betweennessResult bcO G n,
      closeness_centrality := closenessResult ccO G n,
      pagerank := pagerankResult prO G n })

/-! ## C9: the `networkx` PageRank power iteration

`nx.pagerank(G, weight='weight')` is modelled concretely: the undirected
graph is right-stochastically normalised (a node whose incident weights sum
to `0` is dangling), then `x ↦ α·xW + α·(dangling mass)·p + (1-α)·p` is
iterated from the uniform vector with `α = 0.85`, stopping when the
`L1`-change drops below `N·10⁻⁶`, raising `PowerIterationFailedConvergence`
after 100 iterations. -/

/-- Weight of the (unique) edge joining `n` and `m`, `0` if absent. -/
def wq (G : NXGraph) (n m : Nat) : ℚ :=
  ((G.edges.find? (fun e =>
      (e.1 == n && e.2.1 == m) || (e.1 == m && e.2.1 == n))).map
    (fun e => e.2.2)).getD 0

/-- Total weight incident to `n` — the normalisation constant. -/
def outSum (G : NXGraph) (n : Nat) : ℚ := ∑ m ∈ G.nodes.toFinset, wq G n m

/-- Entry `(n,m)` of the right-stochastic transition matrix. -/
def stochW (G : NXGraph) (n m : Nat) : ℚ :=
  if outSum G n = 0 then 0 else wq G n m / outSum G n

/-- The uniform personalisation value `1/N`. -/
def prP (G : NXGraph) : ℚ := 1 / (G.nodes.length : ℚ)

/-- One PageRank power-iteration step. -/
def prStep (G : NXGraph) (x : Nat → ℚ) : Nat → ℚ := fun m =>
  (85 / 100) * (∑ n ∈ G.nodes.toFinset, x n * stochW G n m)
    + (85 / 100) * (∑ n ∈ G.nodes.toFinset, if outSum G n = 0 then x n else 0) * prP G
    + (1 - 85 / 100) * prP G

/-- `L1` distance between successive iterates over the node set. -/
def prErr (G : NXGraph) (x y : Nat → ℚ) : ℚ :=
  ∑ n ∈ G.nodes.toFinset, |x n - y n|

/-- The iteration loop with its convergence test. -/
def prLoop (G : NXGraph) (x : Nat → ℚ) : Nat → Except String (Nat → ℚ)
  | 0 => .error "PowerIterationFailedConvergence"
  | fuel + 1 =>
    let next := prStep G x
    if prErr G next x < (G.nodes.length : ℚ) * (1 / 1000000) then .ok next
    else prLoop G next fuel

/-- `nx.pagerank(G, weight='weight')` with its default parameters. -/
def nxPagerank (G : NXGraph) : Except String (Nat → ℚ) :=
  prLoop G (fun _ => prP G) 100

/-- The PageRank call as the repository consumes it: a dictionary over the
node list. -/
def prDict (G : NXGraph) : Except String (List (Nat × ℚ)) :=
  (nxPagerank G).map (fun f => G.nodes.map (fun n => (n, f n)))

/-- The PageRank column of the centrality pass with the concrete `networkx`
model plugged in. -/
def pagerankColumn (G : NXGraph) : Nat → ℚ := pagerankResult prDict G

/-! ## C10: `calculate_shortest_paths` (`3_analyze_network.py` lines 30–81) -/

/-- The `i < j` pair enumeration over the node list. -/
def allPairs : List Nat → List (Nat × Nat)
  | [] => []
  | n :: rest => rest.map (fun m => (n, m)) ++ allPairs rest

/-- `nx.has_path(G, u, v)` via breadth-first reachability. -/
def hasPathB (G : NXGraph) (u v : Nat) : Bool := decide (v ∈ G.reach u)

/-- The result dictionary of `calculate_shortest_paths`; `"u->v"` keys are
modelled as ordered pairs. -/
structure SPResult where
  paths : List ((Nat × Nat) × List Nat)
  path_lengths : List ((Nat × Nat) × ℚ)
  total_pairs : Nat
  calculated_pairs : Nat

/-- Embedding of `calculate_shortest_paths`: enumerate the pairs (sampling
via `sampleO`, which stands for `random.sample`, only when `total_pairs`
exceeds the cap), keep those joined by a path, and record each kept pair's
path (`pathO` stands for `nx.shortest_path`) and weighted length.  A pair
with no path is skipped, recording nothing; `calculated` counts exactly the
recorded pairs. -/
def calculate_shortest_paths (pathO : Nat → Nat → List Nat)
    (sampleO : List (Nat × Nat) → List (Nat × Nat))
    (G : NXGraph) (max_paths : Nat) : SPResult :=
  let total := G.nodes.length * (G.nodes.length - 1) / 2
  let pairs := if total > max_paths then sampleO (allPairs G.nodes) else allPairs G.nodes
  let recorded := pairs.filter (fun p => hasPathB G p.1 p.2)
  { paths := recorded.map (fun p => (p, pathO p.1 p.2)),
    path_lengths := recorded.map (fun p => (p, ((sssp G p.1).lookup p.2).getD 0)),
    total_pairs := total,
    calculated_pairs := recorded.length }

/-! ## C8: `haversine_distance` (`network_utils.py` lines 16–71)

The float arithmetic of `_simple_haversine` is idealised over `ℝ`. -/

/-- `math.radians`. -/
noncomputable def radians (x : ℝ) : ℝ := x * Real.pi / 180

/-- `math.atan2` with its standard quadrant handling. -/
noncomputable def atan2 (y x : ℝ) : ℝ :=
  if 0 < x then Real.arctan (y / x)
  else if x < 0 then
    (if 0 ≤ y then Real.arctan (y / x) + Real.pi else Real.arctan (y / x) - Real.pi)
  else (if 0 < y then Real.pi / 2 else if y < 0 then -(Real.pi / 2) else 0)

/-- The intermediate `a` of the haversine formula. -/
noncomputable def hav_a (lat1 lon1 lat2 lon2 : ℝ) : ℝ :=
  Real.sin (radians (lat2 - lat1) / 2) ^ 2
    + Real.cos (radians lat1) * Real.cos (radians lat2)
      * Real.sin (radians (lon2 - lon1) / 2) ^ 2

/-- Embedding of `_simple_haversine`: the spherical-Earth closed form with
radius 6,371,000 m. -/
noncomputable def simple_haversine (lat1 lon1 lat2 lon2 : ℝ) : ℝ :=
  6371000 * (2 * atan2 (Real.sqrt (hav_a lat1 lon1 lat2 lon2))
    (Real.sqrt (1 - hav_a lat1 lon1 lat2 lon2)))

/-- A shapely point: `x` is the longitude, `y` the latitude. -/
structure PointR where
  x : ℝ
  y : ℝ

/-- Embedding of `haversine_distance`: first try the precise geodesic
routine (`geo` stands for `geopy.distance.geodesic(...).meters`, applied to
`(lat, lon)` pairs; `none` models its raising), falling back to
`_simple_haversine` when it fails. -/
noncomputable def haversine_distance (geo : (ℝ × ℝ) → (ℝ × ℝ) → Option ℝ)
    (p1 p2 : PointR) : ℝ :=
  match geo (p1.y, p1.x) (p2.y, p2.x) with
  | some d => d
  | none => simple_haversine p1.y p1.x p2.y p2.x

/-! ## Concrete fixtures used by witnesses and counterexamples -/

/-- A single isolated node. -/
def gOne : NXGraph := { nodes := [1], edges := [] }

/-- Two isolated nodes. -/
def gTwo : NXGraph := { nodes := [1, 2], edges := [] }

/-- Three nodes: `1` isolated, `2—3` joined by an edge of weight 5. -/
def gSplit : NXGraph := { nodes := [1, 2, 3], edges := [(2, 3, 5)] }

/-- The null graph. -/
def gEmpty : NXGraph := { nodes := [], edges := [] }

/-! # Theorems -/

theorem lookup_map_building (bs : List Building) (f : Building → ℚ) (b : Building)
    (hb : b ∈ bs) (hn : (bs.map Building.id).Nodup) :
    (bs.map (fun x => (x.id, f x))).lookup b.id = some (f b) := by
  induction bs with
  | nil => cases hb
  | cons a rest ih =>
    simp only [List.map_cons, List.nodup_cons] at hn
    rcases List.mem_cons.mp hb with h | h
    · subst h
      simp [List.lookup]
    · have hne : b.id ≠ a.id := by
        intro he
        exact hn.1 (he ▸ List.mem_map_of_mem Building.id h)
      have hbeq : (b.id == a.id) = false := beq_eq_false_iff_ne.mpr hne
      simp only [List.map_cons, List.lookup, hbeq]
      exact ih h hn.2

/-- C6: for every building batch, weighted accessibility equals
`distance_accessibility * (1 + normalized_area)` with
`normalized_area = (area - min_area) / (max_area - min_area)` over the
batch; when `max_area == min_area` the normalised area is uniformly `1.0`,
so every building's weighted accessibility is its distance count times 2. -/
theorem C6_weighted_accessibility (bs : List Building) (dacc : Nat → ℚ)
    (hn : (bs.map Building.id).Nodup) :
    (maxQ (bs.map (fun b => b.area)) - minQ (bs.map (fun b => b.area)) > 0 →
      ∀ b ∈ bs, (calculate_weighted_accessibility bs dacc true).lookup b.id =
        some (dacc b.id * (1 + (b.area - minQ (bs.map (fun b => b.area))) /
          (maxQ (bs.map (fun b => b.area)) - minQ (bs.map (fun b => b.area))))))
    ∧ (maxQ (bs.map (fun b => b.area)) = minQ (bs.map (fun b => b.area)) →
      ∀ b ∈ bs, (calculate_weighted_accessibility bs dacc true).lookup b.id =
        some (dacc b.id * 2)) := by
  constructor
  · intro hrange b hb
    have hrw : calculate_weighted_accessibility bs dacc true =
        bs.map (fun x => (x.id, dacc x.id *
          (1 + (x.area - minQ (bs.map (fun b => b.area))) /
            (maxQ (bs.map (fun b => b.area)) - minQ (bs.map (fun b => b.area)))))) := by
      simp only [calculate_weighted_accessibility, if_true]
      apply List.map_congr_left
      intro x _
      rw [if_pos hrange]
    rw [hrw]
    exact lookup_map_building bs _ b hb hn
  · intro heq b hb
    have hnot : ¬ (maxQ (bs.map (fun b => b.area)) - minQ (bs.map (fun b => b.area)) > 0) := by
      rw [heq]
      simp
    have hrw : calculate_weighted_accessibility bs dacc true =
        bs.map (fun x => (x.id, dacc x.id * 2)) := by
      simp only [calculate_weighted_accessibility, if_true]
      apply List.map_congr_left
      intro x _
      rw [if_neg hnot]
      norm_num
    rw [hrw]
    exact lookup_map_building bs _ b hb hn

/-- Witness for C6: a two-building batch with equal areas, checked at
building 1. -/
theorem C6_witness :
    (calculate_weighted_accessibility
        [⟨1, 0, 0, 5⟩, ⟨2, 1, 0, 5⟩] (fun n => (n : ℚ)) true).lookup 1 =
      some ((fun n => (n : ℚ)) 1 * 2) :=
  (C6_weighted_accessibility [⟨1, 0, 0, 5⟩, ⟨2, 1, 0, 5⟩] (fun n => (n : ℚ))
      (by decide)).2 (by decide) ⟨1, 0, 0, 5⟩ (by decide)

theorem edges_build_distance (dist : Building → Building → ℚ)
    (bs : List Building) (T : ℚ) :
    (build_distance_graph dist bs T).edges = thresholdEdges dist T bs := rfl

theorem hasEdge_iff (G : NXGraph) (u v : Nat) :
    G.hasEdge u v = true ↔ ∃ w, (u, v, w) ∈ G.edges ∨ (v, u, w) ∈ G.edges := by
  unfold NXGraph.hasEdge
  rw [List.any_eq_true]
  constructor
  · rintro ⟨⟨a, b, w⟩, he, hcond⟩
    simp only [Bool.or_eq_true, Bool.and_eq_true, beq_iff_eq] at hcond
    rcases hcond with ⟨h1, h2⟩ | ⟨h1, h2⟩
    · subst h1; subst h2; exact ⟨w, Or.inl he⟩
    · subst h1; subst h2; exact ⟨w, Or.inr he⟩
  · rintro ⟨w, h | h⟩
    · exact ⟨(u, v, w), h, by simp⟩
    · exact ⟨(v, u, w), h, by simp⟩

theorem mem_thresholdEdges {dist : Building → Building → ℚ} {T : ℚ}
    {bs : List Building} {u v : Nat} {w : ℚ} :
    (u, v, w) ∈ thresholdEdges dist T bs ↔
      ∃ b1 b2, pairIn bs b1 b2 ∧ u = b1.id ∧ v = b2.id ∧ w = dist b1 b2 ∧
        dist b1 b2 ≤ T := by
  induction bs with
  | nil => simp [thresholdEdges, pairIn]
  | cons b rest ih =>
    simp only [thresholdEdges, List.mem_append, List.mem_filterMap, ih, pairIn]
    constructor
    · rintro (⟨b2, hb2, hcond⟩ | ⟨b1, b2, hp, h1, h2, h3, h4⟩)
      · by_cases hle : dist b b2 ≤ T
        · rw [if_pos hle] at hcond
          have heq := Option.some.inj hcond
          obtain ⟨h1, h2, h3⟩ : b.id = u ∧ b2.id = v ∧ dist b b2 = w := by
            simpa [Prod.ext_iff] using heq
          exact ⟨b, b2, Or.inl ⟨rfl, hb2⟩, h1.symm, h2.symm, h3.symm, hle⟩
        · rw [if_neg hle] at hcond
          cases hcond
      · exact ⟨b1, b2, Or.inr hp, h1, h2, h3, h4⟩
    · rintro ⟨b1, b2, (⟨heq, hmem⟩ | hp), h1, h2, h3, h4⟩
      · left
        refine ⟨b2, hmem, ?_⟩
        subst heq
        rw [if_pos h4, h1, h2, h3]
      · right
        exact ⟨b1, b2, hp, h1, h2, h3, h4⟩

theorem pairIn_mem {bs : List Building} {b1 b2 : Building}
    (h : pairIn bs b1 b2) : b1 ∈ bs ∧ b2 ∈ bs := by
  induction bs with
  | nil => cases h
  | cons b rest ih =>
    rcases h with ⟨heq, hm⟩ | hp
    · exact ⟨heq ▸ List.mem_cons_self b rest, List.mem_cons_of_mem b hm⟩
    · exact ⟨List.mem_cons_of_mem b (ih hp).1, List.mem_cons_of_mem b (ih hp).2⟩

theorem id_inj_of_nodup {bs : List Building} (hn : (bs.map Building.id).Nodup)
    {a b : Building} (ha : a ∈ bs) (hb : b ∈ bs) (h : a.id = b.id) : a = b := by
  induction bs with
  | nil => cases ha
  | cons c rest ih =>
    simp only [List.map_cons, List.nodup_cons] at hn
    rcases List.mem_cons.mp ha with h1 | h1 <;> rcases List.mem_cons.mp hb with h2 | h2
    · rw [h1, h2]
    · exfalso
      exact hn.1 (h1 ▸ h ▸ List.mem_map_of_mem Building.id h2)
    · exfalso
      exact hn.1 (h2 ▸ h.symm ▸ List.mem_map_of_mem Building.id h1)
    · exact ih hn.2 h1 h2

theorem pairIn_id_ne {bs : List Building} (hn : (bs.map Building.id).Nodup)
    {b1 b2 : Building} (h : pairIn bs b1 b2) : b1.id ≠ b2.id := by
  induction bs with
  | nil => cases h
  | cons b rest ih =>
    simp only [List.map_cons, List.nodup_cons] at hn
    rcases h with ⟨heq, hm⟩ | hp
    · intro hid
      exact hn.1 (heq ▸ hid ▸ List.mem_map_of_mem Building.id hm)
    · exact ih hn.2 hp

theorem pairIn_of_ne {bs : List Building} (hn : (bs.map Building.id).Nodup)
    {b1 b2 : Building} (h1 : b1 ∈ bs) (h2 : b2 ∈ bs) (hne : b1.id ≠ b2.id) :
    pairIn bs b1 b2 ∨ pairIn bs b2 b1 := by
  induction bs with
  | nil => cases h1
  | cons b rest ih =>
    simp only [List.map_cons, List.nodup_cons] at hn
    rcases List.mem_cons.mp h1 with e1 | e1 <;> rcases List.mem_cons.mp h2 with e2 | e2
    · exact absurd (e1 ▸ e2 ▸ rfl) hne
    · exact Or.inl (Or.inl ⟨e1.symm, e2⟩)
    · exact Or.inr (Or.inl ⟨e2.symm, e1⟩)
    · rcases ih hn.2 e1 e2 with hp | hp
      · exact Or.inl (Or.inr hp)
      · exact Or.inr (Or.inr hp)

/-- C1: in the distance-threshold graph, for every pair of distinct
buildings an edge exists iff the computed pairwise distance is `≤ T`; the
graph has no self-loops; and every edge's weight is the computed distance
of its endpoint pair. -/
theorem C1_distance_threshold_graph (dist : Building → Building → ℚ)
    (bs : List Building) (T : ℚ)
    (hsym : ∀ a b, dist a b = dist b a)
    (hn : (bs.map Building.id).Nodup) :
    (∀ b1 ∈ bs, ∀ b2 ∈ bs, b1.id ≠ b2.id →
      ((build_distance_graph dist bs T).hasEdge b1.id b2.id = true ↔
        dist b1 b2 ≤ T))
    ∧ (∀ u, (build_distance_graph dist bs T).hasEdge u u = false)
    ∧ (∀ e ∈ (build_distance_graph dist bs T).edges,
        ∃ b1, b1 ∈ bs ∧ ∃ b2, b2 ∈ bs ∧
          e.1 = b1.id ∧ e.2.1 = b2.id ∧ e.2.2 = dist b1 b2) := by
  refine ⟨?_, ?_, ?_⟩
  · intro b1 hb1 b2 hb2 hne
    rw [hasEdge_iff]
    constructor
    · rintro ⟨w, h | h⟩
      · rw [edges_build_distance, mem_thresholdEdges] at h
        obtain ⟨a1, a2, hp, k1, k2, _, k4⟩ := h
        obtain ⟨ha1, ha2⟩ := pairIn_mem hp
        have e1 : a1 = b1 := id_inj_of_nodup hn ha1 hb1 k1.symm
        have e2 : a2 = b2 := id_inj_of_nodup hn ha2 hb2 k2.symm
        rw [e1, e2] at k4
        exact k4
      · rw [edges_build_distance, mem_thresholdEdges] at h
        obtain ⟨a1, a2, hp, k1, k2, _, k4⟩ := h
        obtain ⟨ha1, ha2⟩ := pairIn_mem hp
        have e1 : a1 = b2 := id_inj_of_nodup hn ha1 hb2 k1.symm
        have e2 : a2 = b1 := id_inj_of_nodup hn ha2 hb1 k2.symm
        rw [e1, e2] at k4
        rw [hsym b1 b2]
        exact k4
    · intro hle
      rcases pairIn_of_ne hn hb1 hb2 hne with hp | hp
      · exact ⟨dist b1 b2,
          Or.inl (mem_thresholdEdges.mpr ⟨b1, b2, hp, rfl, rfl, rfl, hle⟩)⟩
      · have hle2 : dist b2 b1 ≤ T := by
          rw [hsym b2 b1]
          exact hle
        exact ⟨dist b2 b1,
          Or.inr (mem_thresholdEdges.mpr ⟨b2, b1, hp, rfl, rfl, rfl, hle2⟩)⟩
  · intro u
    cases hE : (build_distance_graph dist bs T).hasEdge u u with
    | false => rfl
    | true =>
      exfalso
      rcases (hasEdge_iff _ u u).mp hE with ⟨w, h | h⟩ <;>
      · rw [edges_build_distance, mem_thresholdEdges] at h
        obtain ⟨a1, a2, hp, k1, k2, _, _⟩ := h
        exact pairIn_id_ne hn hp (k1 ▸ k2 ▸ rfl)
  · rintro ⟨u, v, w⟩ he
    rw [edges_build_distance, mem_thresholdEdges] at he
    obtain ⟨b1, b2, hp, h1, h2, h3, _⟩ := he
    obtain ⟨m1, m2⟩ := pairIn_mem hp
    exact ⟨b1, m1, b2, m2, h1, h2, h3⟩

/-- Witness for C1: a two-building batch with the constant-zero distance and
threshold 1 — the edge between buildings 1 and 2 exists iff `0 ≤ 1`. -/
theorem C1_witness :
    (build_distance_graph (fun _ _ => (0 : ℚ))
        [⟨1, 0, 0, 0⟩, ⟨2, 1, 1, 0⟩] 1).hasEdge 1 2 = true ↔ (0 : ℚ) ≤ 1 :=
  (C1_distance_threshold_graph (fun _ _ => 0) [⟨1, 0, 0, 0⟩, ⟨2, 1, 1, 0⟩] 1
      (fun _ _ => rfl) (by decide)).1
    ⟨1, 0, 0, 0⟩ (by decide) ⟨2, 1, 1, 0⟩ (by decide) (by decide)

/-- C7: the Delaunay builder's node set always equals the input record set,
and whenever the triangulation fails (as it does for fewer than 3
non-collinear centroids), the builder returns all nodes and no edges
instead of crashing. -/
theorem C7_delaunay_graph (dist : (ℚ × ℚ) → (ℚ × ℚ) → ℚ)
    (tri : List (ℚ × ℚ) → Except String (List (Nat × Nat × Nat)))
    (bs : List Building) :
    ((build_delaunay_graph dist tri bs).nodes = bs.map Building.id)
    ∧ (∀ msg, tri (bs.map (fun b => (b.lon, b.lat))) = .error msg →
        build_delaunay_graph dist tri bs =
          { nodes := bs.map Building.id, edges := [] }) := by
  constructor
  · cases htri : tri (bs.map (fun b => (b.lon, b.lat))) with
    | error e => simp [build_delaunay_graph, htri]
    | ok s => simp [build_delaunay_graph, htri]
  · intro msg h
    simp [build_delaunay_graph, h]

/-- Witness for C7: two collinear centroids with a failing triangulation
yield the two nodes and no edges. -/
theorem C7_witness :
    build_delaunay_graph (fun _ _ => 0) (fun _ => Except.error "QhullError")
        [⟨1, 0, 0, 0⟩, ⟨2, 1, 0, 0⟩] = { nodes := [1, 2], edges := [] } :=
  (C7_delaunay_graph (fun _ _ => 0) (fun _ => Except.error "QhullError")
      [⟨1, 0, 0, 0⟩, ⟨2, 1, 0, 0⟩]).2 "QhullError" rfl

/-- C3 counterexample: on the null graph the (successful-everywhere-else)
statistics call is aborted by the unguarded connectivity metric, so a
failure of one metric does abort the whole call and every other metric. -/
theorem C3_counterexample :
    calculate_network_statistics (fun _ => .ok 0) (fun _ => .ok 0) gEmpty =
      .error "Connectivity is undefined for the null graph." := rfl

/-- C3 amended: on every non-empty graph the statistics call succeeds, and
failures of the average-shortest-path-length or clustering computations are
locally contained as missing values; all other fields are computed
unguarded (and on the empty graph the unguarded connectivity check aborts
the whole call, as the counterexample shows). -/
theorem C3_amended_statistics (G : NXGraph)
    (asplO clusO : NXGraph → Except String ℚ) (h : G.nodes ≠ []) :
    calculate_network_statistics asplO clusO G = .ok {
      num_nodes := G.nodes.length,
      num_edges := G.edges.length,
      density := nxDensity G,
      average_degree := averageDegree G,
      is_connected := G.isConnectedB,
      num_connected_components := G.components.length,
      average_shortest_path_length :=
        if G.isConnectedB then exceptToOption (asplO G) else none,
      average_clustering := exceptToOption (clusO G) } := by
  unfold calculate_network_statistics nxIsConnected
  rw [if_neg (by simp [h])]
  rfl

/-- Witness for C3 amended: a one-node graph with both guarded metrics
failing still yields a successful record with missing values. -/
theorem C3_witness :
    calculate_network_statistics (fun _ => Except.error "aspl failed")
        (fun _ => Except.error "clustering failed") gOne =
      Except.ok {
        num_nodes := gOne.nodes.length,
        num_edges := gOne.edges.length,
        density := nxDensity gOne,
        average_degree := averageDegree gOne,
        is_connected := gOne.isConnectedB,
        num_connected_components := gOne.components.length,
        average_shortest_path_length :=
          if gOne.isConnectedB then
            exceptToOption (Except.error "aspl failed") else none,
        average_clustering := exceptToOption (Except.error "clustering failed") } :=
  C3_amended_statistics gOne (fun _ => Except.error "aspl failed")
    (fun _ => Except.error "clustering failed") (by decide)

theorem subset_stepR (G : NXGraph) (vs : List Nat) : ∀ x ∈ vs, x ∈ G.stepR vs := by
  intro x hx
  unfold NXGraph.stepR
  rw [List.mem_dedup]
  exact List.mem_append_left _ hx

theorem mem_iterate_stepR (G : NXGraph) :
    ∀ (k : Nat) (vs : List Nat) (x : Nat), x ∈ vs → x ∈ (G.stepR)^[k] vs := by
  intro k
  induction k with
  | zero =>
    intro vs x hx
    simpa using hx
  | succ k ih =>
    intro vs x hx
    rw [Function.iterate_succ_apply]
    exact ih _ x (subset_stepR G vs x hx)

theorem self_mem_reach (G : NXGraph) (u : Nat) : u ∈ G.reach u :=
  mem_iterate_stepR G _ [u] u (List.mem_cons_self u [])

theorem mem_component_self (G : NXGraph) {n : Nat} (hn : n ∈ G.nodes) :
    n ∈ G.component n := by
  unfold NXGraph.component
  rw [List.mem_filter]
  exact ⟨hn, by simpa using self_mem_reach G n⟩

theorem componentsAux_spec (G : NXGraph) (l seen : List Nat)
    (hsub : ∀ n ∈ l, n ∈ G.nodes) :
    ∀ c ∈ G.componentsAux l seen,
      ∃ n, n ∈ G.nodes ∧ c = G.component n ∧ n ∈ c := by
  induction l generalizing seen with
  | nil =>
    intro c hc
    simp [NXGraph.componentsAux] at hc
  | cons n rest ih =>
    intro c hc
    unfold NXGraph.componentsAux at hc
    by_cases hn : n ∈ seen
    · rw [if_pos hn] at hc
      exact ih seen (fun m hm => hsub m (List.mem_cons_of_mem n hm)) c hc
    · rw [if_neg hn] at hc
      rcases List.mem_cons.mp hc with heq | hmem
      · have hnn : n ∈ G.nodes := hsub n (List.mem_cons_self n rest)
        exact ⟨n, hnn, heq, heq ▸ mem_component_self G hnn⟩
      · exact ih (seen ++ G.component n) (fun m hm => hsub m (List.mem_cons_of_mem n hm)) c hmem

theorem meanDistances_isVal (H : NXGraph) (n : Nat) :
    ∃ q, meanDistances H n = AvgVal.val q := by
  simp only [meanDistances]
  split
  · exact ⟨0, rfl⟩
  · exact ⟨_, rfl⟩

/-- C2 counterexample: in the single-node graph the node has no reachable
peers, yet its exported average path distance is `0.0`, not missing. -/
theorem C2_counterexample :
    NXGraph.reach gOne 1 = [1] ∧
    exportAvg (averagePathDistanceNode gOne 1) = some 0 := by
  constructor
  · rfl
  · rfl

/-- C2 amended: the exported average path distance is missing exactly for
the nodes outside the FIRST enumerated connected component of a
disconnected graph; a node of the first component (or of a connected graph)
always gets a finite value — the mean of its shortest-path distances there,
`0.0` when it has no reachable peers — even though the claim said a
peerless node's export is missing and that every node's mean is taken over
its own component. -/
theorem C2_amended_avg_path (G : NXGraph) (node : Nat) :
    (exportAvg (averagePathDistanceNode G node) = none ↔
      G.isConnectedB = false ∧ node ∉ G.components.headD [])
    ∧ (G.isConnectedB = true →
        averagePathDistanceNode G node = meanDistances G node)
    ∧ (G.isConnectedB = false → node ∈ G.components.headD [] →
        averagePathDistanceNode G node =
          meanDistances (G.subgraph (G.components.headD [])) node) := by
  by_cases hconn : G.isConnectedB = true
  · have hA : averagePathDistanceNode G node = meanDistances G node := by
      unfold averagePathDistanceNode
      rw [if_pos hconn]
    obtain ⟨q, hq⟩ := meanDistances_isVal G node
    refine ⟨⟨?_, ?_⟩, fun _ => hA, fun hfalse => absurd hconn (by simp [hfalse])⟩
    · intro hnone
      rw [hA, hq] at hnone
      simp [exportAvg] at hnone
    · rintro ⟨hf, _⟩
      rw [hconn] at hf
      cases hf
  · have hfalse : G.isConnectedB = false := by
      cases h : G.isConnectedB
      · rfl
      · exact absurd h hconn
    have hne : G.nodes ≠ [] := by
      intro h0
      exact hconn (by simp [NXGraph.isConnectedB, NXGraph.component, h0])
    have hcne : G.components ≠ [] := by
      unfold NXGraph.components
      cases hcase : G.nodes with
      | nil => exact absurd hcase hne
      | cons n rest => simp [NXGraph.componentsAux]
    obtain ⟨c0, rest0, hc0⟩ : ∃ c0 rest0, G.components = c0 :: rest0 := by
      cases h : G.components with
      | nil => exact absurd h hcne
      | cons a l => exact ⟨a, l, rfl⟩
    have hhd : G.components.headD [] = c0 := by rw [hc0]; rfl
    have hc0mem : c0 ∈ G.components := by
      rw [hc0]
      exact List.mem_cons_self c0 rest0
    obtain ⟨n0, _, _, hn0c⟩ :=
      componentsAux_spec G G.nodes [] (fun m hm => hm) c0 hc0mem
    have hEmptyFalse : c0.isEmpty = false := by
      cases hcc : c0 with
      | nil => rw [hcc] at hn0c; cases hn0c
      | cons a l => rfl
    by_cases hmem : node ∈ c0
    · have hA : averagePathDistanceNode G node =
          meanDistances (G.subgraph c0) node := by
        unfold averagePathDistanceNode
        rw [if_neg hconn, hc0]
        simp [hEmptyFalse, hmem]
      obtain ⟨q, hq⟩ := meanDistances_isVal (G.subgraph c0) node
      refine ⟨⟨?_, ?_⟩, ?_, ?_⟩
      · intro hnone
        rw [hA, hq] at hnone
        simp [exportAvg] at hnone
      · rintro ⟨_, hnot⟩
        rw [hhd] at hnot
        exact absurd hmem hnot
      · intro ht
        exact absurd ht hconn
      · intro _ _
        rw [hhd]
        exact hA
    · have hA : averagePathDistanceNode G node = AvgVal.inf := by
        unfold averagePathDistanceNode
        rw [if_neg hconn, hc0]
        simp [hEmptyFalse, hmem]
      refine ⟨⟨?_, ?_⟩, ?_, ?_⟩
      · intro _
        exact ⟨hfalse, by rw [hhd]; exact hmem⟩
      · intro _
        rw [hA]
        rfl
      · intro ht
        exact absurd ht hconn
      · intro _ hmem2
        rw [hhd] at hmem2
        exact absurd hmem2 hmem

/-- Witness for C2 amended: in the split graph, node 1 sits in the first
component and its value is the mean over that component's subgraph. -/
theorem C2_witness :
    averagePathDistanceNode gSplit 1 =
      meanDistances (gSplit.subgraph (gSplit.components.headD [])) 1 :=
  (C2_amended_avg_path gSplit 1).2.2 (by decide) (by decide)

theorem lookup_eq_none {α β : Type} [BEq α] [LawfulBEq α]
    (l : List (α × β)) (n : α) (h : n ∉ l.map Prod.fst) : l.lookup n = none := by
  induction l with
  | nil => rfl
  | cons p rest ih =>
    simp only [List.map_cons, List.mem_cons] at h
    push_neg at h
    have hb : (n == p.1) = false := beq_eq_false_iff_ne.mpr h.1
    simp only [List.lookup, hb]
    exact ih h.2

theorem lookup_append_left {α β : Type} [BEq α] (l1 l2 : List (α × β)) (n : α)
    {v : β} (h : l1.lookup n = some v) : (l1 ++ l2).lookup n = some v := by
  induction l1 with
  | nil => cases h
  | cons p rest ih =>
    cases hb : n == p.1
    · simp only [List.lookup, hb] at h
      simp only [List.cons_append, List.lookup, hb]
      exact ih h
    · simp only [List.lookup, hb] at h
      simp only [List.cons_append, List.lookup, hb]
      exact h

theorem lookup_append_right {α β : Type} [BEq α] (l1 l2 : List (α × β)) (n : α)
    (h : l1.lookup n = none) : (l1 ++ l2).lookup n = l2.lookup n := by
  induction l1 with
  | nil => rfl
  | cons p rest ih =>
    cases hb : n == p.1
    · simp only [List.lookup, hb] at h
      simp only [List.cons_append, List.lookup, hb]
      exact ih h
    · simp only [List.lookup, hb] at h
      cases h

theorem headD_mem {α : Type} {c : List α} (h : c ≠ []) (d : α) : c.headD d ∈ c := by
  cases c with
  | nil => exact absurd rfl h
  | cons a l => exact List.mem_cons_self a l

theorem perCompAux_ok (ccO : NXGraph → Except String (List (Nat × ℚ)))
    (G : NXGraph) :
    ∀ (cs : List (List Nat)) (acc : List (Nat × ℚ)),
      (∀ c ∈ cs, c ≠ []) →
      (∀ c ∈ cs, 1 < c.length → ∃ d, ccO (G.subgraph c) = .ok d) →
      (∀ c ∈ cs, ∀ d, ccO (G.subgraph c) = .ok d → ∀ p ∈ d, p.1 ∈ c) →
      ∃ E, perCompAux ccO G cs acc = .ok (acc ++ E) ∧
        ∀ p ∈ E, p.1 ∈ cs.flatten := by
  intro cs
  induction cs with
  | nil =>
    intro acc _ _ _
    exact ⟨[], by simp [perCompAux], by simp⟩
  | cons c rest ih =>
    intro acc hne hok hkeys
    by_cases hlen : 1 < c.length
    · obtain ⟨d, hd⟩ := hok c (List.mem_cons_self c rest) hlen
      obtain ⟨E, hE, hkE⟩ := ih (acc ++ d)
        (fun x hx => hne x (List.mem_cons_of_mem c hx))
        (fun x hx => hok x (List.mem_cons_of_mem c hx))
        (fun x hx => hkeys x (List.mem_cons_of_mem c hx))
      refine ⟨d ++ E, ?_, ?_⟩
      · unfold perCompAux
        rw [if_pos hlen, hd]
        dsimp only
        rw [hE, List.append_assoc]
      · intro p hp
        rw [List.flatten_cons]
        rcases List.mem_append.mp hp with h | h
        · exact List.mem_append_left _
            (hkeys c (List.mem_cons_self c rest) d hd p h)
        · exact List.mem_append_right _ (hkE p h)
    · obtain ⟨E, hE, hkE⟩ := ih (acc ++ [(c.headD 0, 0)])
        (fun x hx => hne x (List.mem_cons_of_mem c hx))
        (fun x hx => hok x (List.mem_cons_of_mem c hx))
        (fun x hx => hkeys x (List.mem_cons_of_mem c hx))
      refine ⟨(c.headD 0, 0) :: E, ?_, ?_⟩
      · unfold perCompAux
        rw [if_neg hlen, hE, List.append_assoc, List.singleton_append]
      · intro p hp
        rw [List.flatten_cons]
        rcases List.mem_cons.mp hp with heq | h
        · rw [heq]
          exact List.mem_append_left _ (headD_mem (hne c (List.mem_cons_self c rest)) 0)
        · exact List.mem_append_right _ (hkE p h)

theorem perCompAux_lookup (ccO : NXGraph → Except String (List (Nat × ℚ)))
    (G : NXGraph) (n : Nat) :
    ∀ (cs : List (List Nat)) (acc : List (Nat × ℚ)),
      cs.flatten.Nodup →
      (∀ c ∈ cs, c ≠ []) →
      (∀ c ∈ cs, 1 < c.length → ∃ d, ccO (G.subgraph c) = .ok d) →
      (∀ c ∈ cs, ∀ d, ccO (G.subgraph c) = .ok d → ∀ p ∈ d, p.1 ∈ c) →
      n ∉ acc.map Prod.fst →
      ∀ c, c ∈ cs → n ∈ c →
      ∃ D, perCompAux ccO G cs acc = .ok D ∧
        (c.length = 1 → (D.lookup n).getD 0 = 0) ∧
        (∀ d, ccO (G.subgraph c) = .ok d → 1 < c.length →
          (D.lookup n).getD 0 = (d.lookup n).getD 0) := by
  intro cs
  induction cs with
  | nil =>
    intro acc _ _ _ _ _ c hc _
    cases hc
  | cons c' rest ih =>
    intro acc hnd hne hok hkeys haccn c hc hn
    have hnd' : (c' ++ rest.flatten).Nodup := by
      rw [← List.flatten_cons]
      exact hnd
    rw [List.nodup_append] at hnd'
    obtain ⟨_, hndrest, hdisj⟩ := hnd'
    have hne' : ∀ x ∈ rest, x ≠ [] := fun x hx => hne x (List.mem_cons_of_mem c' hx)
    have hok' : ∀ x ∈ rest, 1 < x.length → ∃ d, ccO (G.subgraph x) = .ok d :=
      fun x hx => hok x (List.mem_cons_of_mem c' hx)
    have hkeys' : ∀ x ∈ rest, ∀ d, ccO (G.subgraph x) = .ok d → ∀ p ∈ d, p.1 ∈ x :=
      fun x hx => hkeys x (List.mem_cons_of_mem c' hx)
    rcases List.mem_cons.mp hc with hceq | hcrest
    · -- the target component is the head
      subst hceq
      by_cases hlen : 1 < c.length
      · obtain ⟨d, hd⟩ := hok c (List.mem_cons_self c rest) hlen
        obtain ⟨E, hE, hkE⟩ := perCompAux_ok ccO G rest (acc ++ d) hne' hok' hkeys'
        have haccnone : acc.lookup n = none := lookup_eq_none acc n haccn
        have hEnone : E.lookup n = none := by
          apply lookup_eq_none
          intro hmemE
          obtain ⟨p, hp, hp1⟩ := List.mem_map.mp hmemE
          exact hdisj hn (hp1 ▸ hkE p hp)
        refine ⟨acc ++ d ++ E, ?_, ?_, ?_⟩
        · unfold perCompAux
          rw [if_pos hlen, hd]
          dsimp only
          rw [hE]
        · intro h1
          omega
        · intro d' hd' _
          have hdd : d' = d := by
            rw [hd] at hd'
            exact (Except.ok.inj hd').symm
          subst hdd
          cases hdl : d'.lookup n with
          | some v =>
            rw [lookup_append_left (acc ++ d') E n
              (by rw [lookup_append_right acc d' n haccnone, hdl])]
          | none =>
            rw [lookup_append_right (acc ++ d') E n
              (by rw [lookup_append_right acc d' n haccnone, hdl]), hEnone]
      · -- singleton head containing n
        have hcne : c ≠ [] := hne c (List.mem_cons_self c rest)
        have hhead : c.headD 0 = n := by
          cases hcc : c with
          | nil => exact absurd hcc hcne
          | cons a l =>
            rw [hcc] at hn hlen
            cases List.mem_cons.mp hn with
            | inl h => rw [h]; rfl
            | inr h =>
              exfalso
              apply hlen
              have : l ≠ [] := List.ne_nil_of_mem h
              cases l with
              | nil => exact absurd rfl this
              | cons b m => simp [List.length_cons]
        obtain ⟨E, hE, hkE⟩ :=
          perCompAux_ok ccO G rest (acc ++ [(c.headD 0, 0)]) hne' hok' hkeys'
        have haccnone : acc.lookup n = none := lookup_eq_none acc n haccn
        refine ⟨acc ++ [(c.headD 0, 0)] ++ E, ?_, ?_, ?_⟩
        · unfold perCompAux
          rw [if_neg hlen, hE]
        · intro _
          have hsome : (acc ++ [(c.headD 0, 0)]).lookup n = some 0 := by
            rw [lookup_append_right acc _ n haccnone, hhead]
            simp [List.lookup]
          rw [lookup_append_left _ E n hsome]
          rfl
        · intro d' _ hlen'
          exact absurd hlen' hlen
    · -- the target component is further down
      have hnotc' : n ∉ c' := fun hmem =>
        hdisj hmem (List.mem_flatten.mpr ⟨c, hcrest, hn⟩)
      by_cases hlen : 1 < c'.length
      · obtain ⟨d, hd⟩ := hok c' (List.mem_cons_self c' rest) hlen
        have hkd : ∀ p ∈ d, p.1 ∈ c' := hkeys c' (List.mem_cons_self c' rest) d hd
        have haccd : n ∉ (acc ++ d).map Prod.fst := by
          rw [List.map_append, List.mem_append]
          rintro (h | h)
          · exact haccn h
          · obtain ⟨p, hp, hp1⟩ := List.mem_map.mp h
            exact hnotc' (hp1 ▸ hkd p hp)
        obtain ⟨D, hD, h1, h2⟩ :=
          ih (acc ++ d) hndrest hne' hok' hkeys' haccd c hcrest hn
        refine ⟨D, ?_, h1, h2⟩
        unfold perCompAux
        rw [if_pos hlen, hd]
        dsimp only
        rw [hD]
      · have hc'ne : c' ≠ [] := hne c' (List.mem_cons_self c' rest)
        have haccd : n ∉ (acc ++ [(c'.headD 0, 0)]).map Prod.fst := by
          rw [List.map_append, List.mem_append]
          rintro (h | h)
          · exact haccn h
          · simp only [List.map_cons, List.map_nil, List.mem_singleton] at h
            exact hnotc' (h ▸ headD_mem hc'ne 0)
        obtain ⟨D, hD, h1, h2⟩ :=
          ih (acc ++ [(c'.headD 0, 0)]) hndrest hne' hok' hkeys' haccd c hcrest hn
        refine ⟨D, ?_, h1, h2⟩
        unfold perCompAux
        rw [if_neg hlen, hD]

theorem components_ne_nil (G : NXGraph) : ∀ c ∈ G.components, c ≠ [] := by
  intro c hc
  obtain ⟨n, _, _, hn⟩ := componentsAux_spec G G.nodes [] (fun m hm => hm) c hc
  exact List.ne_nil_of_mem hn

/-- C5: on a disconnected graph the closeness pass never escapes an
exception (failures are contained as all-zero columns), closeness is
computed per connected component on that component's subgraph — whose edge
set is purely intra-component — and every singleton component's node
receives closeness `0`. -/
theorem C5_closeness_components (G : NXGraph)
    (ccO : NXGraph → Except String (List (Nat × ℚ)))
    (hconn : nxIsConnected G = .ok false)
    (hnd : G.components.flatten.Nodup)
    (hok : ∀ c ∈ G.components, 1 < c.length → ∃ d, ccO (G.subgraph c) = .ok d)
    (hkeys : ∀ c ∈ G.components, ∀ d, ccO (G.subgraph c) = .ok d →
      ∀ p ∈ d, p.1 ∈ c) :
    (∀ c ∈ G.components, ∀ n ∈ c,
        (c.length = 1 → closenessResult ccO G n = 0)
        ∧ (∀ d, ccO (G.subgraph c) = .ok d → 1 < c.length →
            closenessResult ccO G n = (d.lookup n).getD 0))
    ∧ (∀ (c : List Nat), ∀ e ∈ (G.subgraph c).edges, e.1 ∈ c ∧ e.2.1 ∈ c)
    ∧ (∀ (ccO' : NXGraph → Except String (List (Nat × ℚ))) (msg : String),
        closenessExcept ccO' G = .error msg →
          ∀ m, closenessResult ccO' G m = 0) := by
  have hexc : closenessExcept ccO G = perCompAux ccO G G.components [] := by
    unfold closenessExcept perComponentCloseness
    rw [hconn]
    rfl
  refine ⟨?_, ?_, ?_⟩
  · intro c hc n hn
    obtain ⟨D, hD, h1, h2⟩ := perCompAux_lookup ccO G n G.components [] hnd
      (components_ne_nil G) hok hkeys (by simp) c hc hn
    have hres : closenessResult ccO G = fun m => (D.lookup m).getD 0 := by
      unfold closenessResult
      rw [hexc, hD]
    constructor
    · intro hl1
      rw [hres]
      exact h1 hl1
    · intro d hd hlen
      rw [hres]
      exact h2 d hd hlen
  · intro c e he
    have := (List.mem_filter.mp he).2
    simpa using this
  · intro ccO' msg herr m
    unfold closenessResult
    rw [herr]

/-- Witness for C5: the split graph is disconnected; its singleton
component's node 1 receives closeness `0`. -/
theorem C5_witness :
    closenessResult (fun _ => Except.ok []) gSplit 1 = 0 := by
  have h := C5_closeness_components gSplit (fun _ => Except.ok [])
    (by rfl) (by decide)
    (fun c _ _ => ⟨[], rfl⟩)
    (fun c _ d hd p hp => by
      have hde : d = [] := (Except.ok.inj hd).symm
      rw [hde] at hp
      cases hp)
  exact ((h.1 [1] (by decide) 1 (by decide)).1) (by decide)

/-- C4: the betweenness call is exact (no pivot sample) for graphs with at
most 50 nodes and uses a `min(50, N)`-pivot weighted approximation for
larger graphs; on failure every node's betweenness falls back to `0` while
the closeness and PageRank columns are still computed from their own
blocks. -/
theorem C4_betweenness_dispatch (G : NXGraph)
    (bcO : NXGraph → Option Nat → Except String (List (Nat × ℚ)))
    (ccO prO : NXGraph → Except String (List (Nat × ℚ))) :
    (G.nodes.length ≤ 50 → kChoice G = none)
    ∧ (50 < G.nodes.length → kChoice G = some (min 50 G.nodes.length))
    ∧ (∀ msg, bcO G (kChoice G) = .error msg →
        ∀ r ∈ calculate_centrality_metrics bcO ccO prO G,
          r.betweenness_centrality = 0
          ∧ r.closeness_centrality = closenessResult ccO G r.building_id
          ∧ r.pagerank = pagerankResult prO G r.building_id)
    ∧ (∀ d, bcO G (kChoice G) = .ok d →
        ∀ r ∈ calculate_centrality_metrics bcO ccO prO G,
          r.betweenness_centrality = (d.lookup r.building_id).getD 0) := by
  refine ⟨?_, ?_, ?_, ?_⟩
  · intro h
    unfold kChoice
    rw [if_neg (by omega)]
  · intro h
    unfold kChoice
    rw [if_pos (by omega)]
  · intro msg herr r hr
    obtain ⟨n, hn, hrn⟩ := List.mem_map.mp hr
    refine ⟨?_, ?_, ?_⟩
    · rw [← hrn]
      show betweennessResult bcO G n = 0
      unfold betweennessResult
      rw [herr]
    · rw [← hrn]
    · rw [← hrn]
  · intro d hd r hr
    obtain ⟨n, hn, hrn⟩ := List.mem_map.mp hr
    rw [← hrn]
    show betweennessResult bcO G n = (d.lookup n).getD 0
    unfold betweennessResult
    rw [hd]

/-- Witness for C4: a two-node graph whose betweenness oracle fails — the
first row's betweenness is `0`. -/
theorem C4_witness :
    ((calculate_centrality_metrics (fun _ _ => Except.error "boom")
        (fun _ => Except.ok []) (fun _ => Except.ok []) gTwo).headD
      ⟨0, 0, 0, 0, 0, 0⟩).betweenness_centrality = 0 := by
  have h := (C4_betweenness_dispatch gTwo (fun _ _ => Except.error "boom")
    (fun _ => Except.ok []) (fun _ => Except.ok [])).2.2.1 "boom" rfl
  refine (h _ (headD_mem ?_ _)).1
  simp [calculate_centrality_metrics, gTwo]

theorem sum_stochW (G : NXGraph) (n : Nat) :
    ∑ m ∈ G.nodes.toFinset, stochW G n m = if outSum G n = 0 then 0 else 1 := by
  by_cases h : outSum G n = 0
  · simp [stochW, h]
  · rw [if_neg h]
    simp only [stochW, if_neg h]
    rw [← Finset.sum_div]
    exact div_self h

theorem card_mul_prP (G : NXGraph) (hnd : G.nodes.Nodup) (hne : G.nodes ≠ []) :
    (G.nodes.toFinset.card : ℚ) * prP G = 1 := by
  have h1 : G.nodes.toFinset.card = G.nodes.length := List.toFinset_card_of_nodup hnd
  have hNne : (G.nodes.length : ℚ) ≠ 0 := by
    have : G.nodes.length ≠ 0 := by
      intro h
      exact hne (List.length_eq_zero.mp h)
    exact_mod_cast this
  rw [h1]
  unfold prP
  rw [mul_one_div]
  exact div_self hNne

theorem sum_prStep (G : NXGraph) (hnd : G.nodes.Nodup) (hne : G.nodes ≠ [])
    (x : Nat → ℚ) (hx : ∑ n ∈ G.nodes.toFinset, x n = 1) :
    ∑ m ∈ G.nodes.toFinset, prStep G x m = 1 := by
  have hcp := card_mul_prP G hnd hne
  unfold prStep
  rw [Finset.sum_add_distrib, Finset.sum_add_distrib, Finset.sum_const,
    Finset.sum_const]
  have hA : ∑ m ∈ G.nodes.toFinset,
      (85 / 100 : ℚ) * (∑ n ∈ G.nodes.toFinset, x n * stochW G n m)
      = (85 / 100) * ∑ n ∈ G.nodes.toFinset,
          (if outSum G n = 0 then 0 else x n) := by
    rw [← Finset.mul_sum]
    congr 1
    rw [Finset.sum_comm]
    refine Finset.sum_congr rfl (fun n _ => ?_)
    rw [← Finset.mul_sum, sum_stochW]
    by_cases h : outSum G n = 0 <;> simp [h]
  rw [hA, nsmul_eq_mul, nsmul_eq_mul]
  have hsplit : (∑ n ∈ G.nodes.toFinset, (if outSum G n = 0 then 0 else x n))
      + (∑ n ∈ G.nodes.toFinset, (if outSum G n = 0 then x n else 0)) = 1 := by
    rw [← hx, ← Finset.sum_add_distrib]
    refine Finset.sum_congr rfl (fun n _ => ?_)
    by_cases h : outSum G n = 0 <;> simp [h]
  linear_combination
    ((85 / 100) * (∑ n ∈ G.nodes.toFinset, (if outSum G n = 0 then x n else 0))
      + (1 - 85 / 100)) * hcp + (85 / 100) * hsplit

theorem prLoop_sum (G : NXGraph) (hnd : G.nodes.Nodup) (hne : G.nodes ≠ []) :
    ∀ (fuel : Nat) (x : Nat → ℚ), (∑ n ∈ G.nodes.toFinset, x n = 1) →
      ∀ f, prLoop G x fuel = .ok f → ∑ n ∈ G.nodes.toFinset, f n = 1 := by
  intro fuel
  induction fuel with
  | zero =>
    intro x _ f hf
    cases hf
  | succ fuel ih =>
    intro x hx f hf
    simp only [prLoop] at hf
    by_cases hcv : prErr G (prStep G x) x < (G.nodes.length : ℚ) * (1 / 1000000)
    · rw [if_pos hcv] at hf
      have hfx := Except.ok.inj hf
      rw [← hfx]
      exact sum_prStep G hnd hne x hx
    · rw [if_neg hcv] at hf
      exact ih (prStep G x) (sum_prStep G hnd hne x hx) f hf

theorem lookup_map_self {α β : Type} [BEq α] [LawfulBEq α]
    (l : List α) (g : α → β) (k : α) (hk : k ∈ l) :
    (l.map (fun a => (a, g a))).lookup k = some (g k) := by
  induction l with
  | nil => cases hk
  | cons a rest ih =>
    cases hb : k == a with
    | true =>
      have hka : k = a := eq_of_beq hb
      simp [List.lookup, hb, hka]
    | false =>
      simp only [List.map_cons, List.lookup, hb]
      apply ih
      rcases List.mem_cons.mp hk with h' | h'
      · exact absurd (h' ▸ hb) (by simp)
      · exact h'

/-- C9: for every non-empty graph, the PageRank column of the centrality
pass sums to exactly 1 — both with the concrete power-iteration model of
`nx.pagerank` (whose successful result always carries total mass 1) and
under the uniform `1/N` fallback taken when the computation fails. -/
theorem C9_pagerank_sum (G : NXGraph) (hnd : G.nodes.Nodup)
    (hne : G.nodes ≠ []) :
    (∑ n ∈ G.nodes.toFinset, pagerankColumn G n = 1)
    ∧ (∀ (prO : NXGraph → Except String (List (Nat × ℚ))) (msg : String),
        prO G = .error msg →
          ∑ n ∈ G.nodes.toFinset, pagerankResult prO G n = 1) := by
  have hcp := card_mul_prP G hnd hne
  have huniform : ∑ _n ∈ G.nodes.toFinset, (1 / (G.nodes.length : ℚ)) = 1 := by
    rw [Finset.sum_const, nsmul_eq_mul]
    simpa [prP] using hcp
  constructor
  · unfold pagerankColumn pagerankResult
    cases hpg : nxPagerank G with
    | error msg =>
      have hd : prDict G = .error msg := by
        unfold prDict
        rw [hpg]
        rfl
      simp only [hd]
      exact huniform
    | ok f =>
      have hd : prDict G = .ok (G.nodes.map (fun n => (n, f n))) := by
        unfold prDict
        rw [hpg]
        rfl
      simp only [hd]
      have hsum : ∑ n ∈ G.nodes.toFinset, f n = 1 := by
        have hx0 : ∑ _n ∈ G.nodes.toFinset, prP G = 1 := by
          rw [Finset.sum_const, nsmul_eq_mul]
          exact hcp
        exact prLoop_sum G hnd hne 100 (fun _ => prP G) hx0 f hpg
      calc ∑ n ∈ G.nodes.toFinset,
            ((G.nodes.map (fun a => (a, f a))).lookup n).getD 0
          = ∑ n ∈ G.nodes.toFinset, f n := by
            refine Finset.sum_congr rfl (fun n hn => ?_)
            rw [lookup_map_self G.nodes f n (List.mem_toFinset.mp hn)]
            rfl
        _ = 1 := hsum
  · intro prO msg h
    unfold pagerankResult
    simp only [h]
    exact huniform

/-- Witness for C9: the two-node fixture's PageRank column sums to 1. -/
theorem C9_witness :
    ∑ n ∈ gTwo.nodes.toFinset, pagerankColumn gTwo n = 1 :=
  (C9_pagerank_sum gTwo (by decide) (by decide)).1

/-- C10: when no sampling occurs, a source-target pair with no connecting
path contributes no entry to either the paths or the path-lengths mapping;
`calculated_pairs` always equals the number of recorded entries; and on a
disconnected two-node graph (well under the cap) it is strictly less than
`total_pairs`. -/
theorem C10_shortest_paths (pathO : Nat → Nat → List Nat)
    (sampleO : List (Nat × Nat) → List (Nat × Nat)) (G : NXGraph)
    (max_paths : Nat)
    (hcap : G.nodes.length * (G.nodes.length - 1) / 2 ≤ max_paths) :
    (∀ u v, hasPathB G u v = false →
      ((calculate_shortest_paths pathO sampleO G max_paths).paths.lookup
          (u, v) = none
        ∧ (calculate_shortest_paths pathO sampleO G max_paths).path_lengths.lookup
            (u, v) = none))
    ∧ ((calculate_shortest_paths pathO sampleO G max_paths).calculated_pairs =
          (calculate_shortest_paths pathO sampleO G max_paths).paths.length
      ∧ (calculate_shortest_paths pathO sampleO G max_paths).calculated_pairs =
          (calculate_shortest_paths pathO sampleO G max_paths).path_lengths.length)
    ∧ ((calculate_shortest_paths pathO sampleO gTwo 100).calculated_pairs <
        (calculate_shortest_paths pathO sampleO gTwo 100).total_pairs) := by
  have hC : calculate_shortest_paths pathO sampleO G max_paths =
      { paths := ((allPairs G.nodes).filter
            (fun p => hasPathB G p.1 p.2)).map (fun p => (p, pathO p.1 p.2)),
        path_lengths := ((allPairs G.nodes).filter
            (fun p => hasPathB G p.1 p.2)).map
          (fun p => (p, ((sssp G p.1).lookup p.2).getD 0)),
        total_pairs := G.nodes.length * (G.nodes.length - 1) / 2,
        calculated_pairs := ((allPairs G.nodes).filter
            (fun p => hasPathB G p.1 p.2)).length } := by
    simp only [calculate_shortest_paths]
    rw [if_neg (not_lt.mpr hcap)]
  refine ⟨?_, ?_, ?_⟩
  · intro u v hfalse
    rw [hC]
    constructor
    · apply lookup_eq_none
      intro hmem
      rw [List.map_map] at hmem
      have hrec : (u, v) ∈ (allPairs G.nodes).filter
          (fun p => hasPathB G p.1 p.2) := by
        simpa using hmem
      have hp := (List.mem_filter.mp hrec).2
      rw [hfalse] at hp
      cases hp
    · apply lookup_eq_none
      intro hmem
      rw [List.map_map] at hmem
      have hrec : (u, v) ∈ (allPairs G.nodes).filter
          (fun p => hasPathB G p.1 p.2) := by
        simpa using hmem
      have hp := (List.mem_filter.mp hrec).2
      rw [hfalse] at hp
      cases hp
  · rw [hC]
    constructor
    · simp
    · simp
  · show (0 : Nat) < 1
    exact Nat.zero_lt_one

/-- Witness for C10: in the two-isolated-node fixture the pair `(1, 2)` has
no path and no recorded entry. -/
theorem C10_witness :
    (calculate_shortest_paths (fun _ _ => []) id gTwo 100).paths.lookup
        (1, 2) = none :=
  ((C10_shortest_paths (fun _ _ => []) id gTwo 100 (by decide)).1 1 2
    (by decide)).1

theorem sin_sq_sub_symm (p q : ℝ) :
    Real.sin (radians (p - q) / 2) ^ 2 = Real.sin (radians (q - p) / 2) ^ 2 := by
  have h : radians (p - q) / 2 = -(radians (q - p) / 2) := by
    unfold radians
    ring
  rw [h, Real.sin_neg]
  ring

theorem hav_a_symm (lat1 lon1 lat2 lon2 : ℝ) :
    hav_a lat1 lon1 lat2 lon2 = hav_a lat2 lon2 lat1 lon1 := by
  unfold hav_a
  rw [sin_sq_sub_symm lat2 lat1, sin_sq_sub_symm lon2 lon1]
  ring

theorem hav_a_self (lat lon : ℝ) : hav_a lat lon lat lon = 0 := by
  unfold hav_a radians
  simp [sub_self]

theorem simple_haversine_symm (lat1 lon1 lat2 lon2 : ℝ) :
    simple_haversine lat1 lon1 lat2 lon2 = simple_haversine lat2 lon2 lat1 lon1 := by
  unfold simple_haversine
  rw [hav_a_symm]

theorem simple_haversine_self (lat lon : ℝ) :
    simple_haversine lat lon lat lon = 0 := by
  unfold simple_haversine
  rw [hav_a_self, Real.sqrt_zero, sub_zero, Real.sqrt_one]
  unfold atan2
  rw [if_pos one_pos]
  norm_num [Real.arctan_zero]

/-- C8: the spherical-Earth fallback is symmetric and zero on the diagonal;
the composite distance (precise geodesic first, fallback on failure) is
symmetric whenever the external geodesic routine treats argument order
symmetrically, and zero on the diagonal whenever that routine fails there
or reports the correct zero. -/
theorem C8_distance_symmetry :
    (∀ lat1 lon1 lat2 lon2 : ℝ,
      simple_haversine lat1 lon1 lat2 lon2 = simple_haversine lat2 lon2 lat1 lon1)
    ∧ (∀ lat lon : ℝ, simple_haversine lat lon lat lon = 0)
    ∧ (∀ (geo : (ℝ × ℝ) → (ℝ × ℝ) → Option ℝ) (p1 p2 : PointR),
        (∀ a b, geo a b = geo b a) →
        haversine_distance geo p1 p2 = haversine_distance geo p2 p1)
    ∧ (∀ (geo : (ℝ × ℝ) → (ℝ × ℝ) → Option ℝ) (p : PointR),
        (geo (p.y, p.x) (p.y, p.x) = none ∨ geo (p.y, p.x) (p.y, p.x) = some 0) →
        haversine_distance geo p p = 0) := by
  refine ⟨simple_haversine_symm, simple_haversine_self, ?_, ?_⟩
  · intro geo p1 p2 hsym
    unfold haversine_distance
    rw [hsym (p1.y, p1.x) (p2.y, p2.x)]
    cases hgeo : geo (p2.y, p2.x) (p1.y, p1.x) with
    | some d => rfl
    | none => exact simple_haversine_symm p1.y p1.x p2.y p2.x
  · intro geo p hgeo
    unfold haversine_distance
    rcases hgeo with h | h
    · rw [h]
      exact simple_haversine_self p.y p.x
    · rw [h]

/-- Witness for C8: with an always-failing geodesic routine the composite
distance from the origin to itself is `0`. -/
theorem C8_witness :
    haversine_distance (fun _ _ => none) ⟨0, 0⟩ ⟨0, 0⟩ = 0 :=
  C8_distance_symmetry.2.2.2 (fun _ _ => none) ⟨0, 0⟩ (Or.inl rfl)
